import Mathlib

/-!
Verification of the frame-scoped lifetime and recycling subsystem described by
the Granite-MicroSamples design notes.  The repository's sample programs invoke
the backend (a git submodule); its behaviour is reconstructed here from the
specification's contracts and modelled as executable Lean definitions:

* a frame-context ring with deferred resource reclamation,
* a per-layout recycling cache (descriptor-set allocator) with an idle-frame
  eviction sweep and hash-then-verify lookup,
* the render-pass attachment layout/dependency deducer,
* command-buffer render state with save/restore and per-buffer locality.
-/

deriving instance DecidableEq for Except

namespace Granite

/-- Modelled from the spec: the Frame Context Ring plus Deferred Resource
Reclaimer state (Device internals are in the backend submodule, not in this
repository).  `N` is the configured buffering depth, `current` the active
context index, `pending i` context `i`'s pending-destruction list,
`markerReached i` whether context `i`'s completion marker has been observed
reached, and `freed` the log of physically freed resources in order. -/
structure RingState where
  N : Nat
  current : Nat
  pending : Nat → List Nat
  markerReached : Nat → Bool
  freed : List Nat

/-- Modelled from the spec: `destroy(resource)` appends the resource to the
current frame context's pending-destruction list; no immediate free. -/
def destroy (r : Nat) (s : RingState) : RingState :=
  { s with pending := Function.update s.pending s.current (s.pending s.current ++ [r]) }

/-- Modelled from the spec: first phase of `begin_frame` — advance to the next
context index, `(current + 1) mod N`. -/
def advancePhase (s : RingState) : RingState :=
  { s with current := (s.current + 1) % s.N }

/-- Modelled from the spec: second phase of `begin_frame` — block until the
(now current) context's prior completion marker is reached. -/
def waitPhase (s : RingState) : RingState :=
  { s with markerReached := Function.update s.markerReached s.current true }

/-- Modelled from the spec: third phase of `begin_frame` — run the current
context's pending-destruction list to completion, freeing every resource. -/
def freePhase (s : RingState) : RingState :=
  { s with freed := s.freed ++ s.pending s.current }

/-- Modelled from the spec: fourth phase of `begin_frame` — clear the current
context's pending-destruction list. -/
def clearPhase (s : RingState) : RingState :=
  { s with pending := Function.update s.pending s.current [] }

/-- Modelled from the spec: `begin_frame()` advances to the next context index,
waits for that context's completion marker, frees its pending resources, then
clears its pending list — in that order. -/
def beginFrame (s : RingState) : RingState :=
  clearPhase (freePhase (waitPhase (advancePhase s)))

/-- Modelled from the spec: `wait_idle()` forces all contexts to complete
synchronously and reclaims all pending resources across every context. -/
def waitIdle (s : RingState) : RingState :=
  { s with
    markerReached := fun i => if i < s.N then true else s.markerReached i
    freed := s.freed ++ ((List.range s.N).map s.pending).flatten
    pending := fun i => if i < s.N then [] else s.pending i }

/-- Modelled from the spec: a binding state, the structural key behind a
fingerprint — the layout id plus the sorted binding identities. -/
structure BindingState where
  layoutId : Nat
  bindings : List Nat
deriving DecidableEq

/-- Modelled from the spec: the fast hash half of a fingerprint.  Deliberately
weak (reduced modulo 16) so that structurally distinct binding states can
collide, exercising the hash-then-verify requirement. -/
def fingerHash (b : BindingState) : Nat :=
  (b.layoutId + b.bindings.sum) % 16

/-- Modelled from the spec: a cached object's storage identity, tagged with the
layout whose allocator owns it (layouts are not interchangeable). -/
structure Storage where
  layoutId : Nat
  slot : Nat
deriving DecidableEq

/-- Modelled from the spec: a RecyclableEntry — the structural key, the cached
object's storage, and the last-used frame counter. -/
structure Entry where
  key : BindingState
  storage : Storage
  lastUsed : Nat
deriving DecidableEq

/-- Modelled from the spec: a RecyclingAllocator for one fixed layout — its
live entries, the free list of recycled storage slots (same layout only), and
a counter for fresh slots. -/
structure Allocator where
  entries : List Entry
  freeList : List Nat
  nextFresh : Nat
deriving DecidableEq

/-- Modelled from the spec: the Recycling Cache — one allocator per layout id
and the current frame counter. -/
structure CacheState where
  allocators : Nat → Allocator
  frame : Nat

/-- Modelled from the spec: the observed eviction constant — an entry is
eligible for eviction only after 8 frames of non-use. -/
def idle_threshold : Nat := 8

/-- Modelled from the spec: the initial cache — every allocator empty, frame
counter zero. -/
def initCache : CacheState :=
  { allocators := fun _ => ⟨[], [], 0⟩, frame := 0 }

/-- Modelled from the spec: hash-then-verify lookup — pre-filter the entries by
fingerprint hash, then require full structural equality of the binding state;
pure hash equality is never sufficient. -/
def lookupEntry (a : Allocator) (b : BindingState) : Option Entry :=
  (a.entries.filter (fun e => fingerHash e.key == fingerHash b)).find?
    (fun e => e.key == b)

/-- Modelled from the spec: the distinct error signalling allocation failure
inside `builder_fn`. -/
inductive AcquireError where
  | allocationFailed
deriving DecidableEq

/-- Modelled from the spec: the outcome of an `acquire` call — the returned
entry (or the allocation-failure error), the resulting cache state, and
whether `builder_fn` was invoked. -/
structure AcqOut where
  result : Except AcquireError Entry
  state : CacheState
  builderInvoked : Bool

/-- Modelled from the spec: take a recycled storage slot from the allocator's
free list when one is available, otherwise a fresh slot. -/
def allocSlot (a : Allocator) : Nat × Allocator :=
  match a.freeList with
  | f :: rest => (f, { a with freeList := rest })
  | [] => (a.nextFresh, { a with nextFresh := a.nextFresh + 1 })

/-- Modelled from the spec: `acquire(layout_id, fingerprint, builder_fn)` —
return the existing entry if the fingerprint is found in that layout's
allocator (updating its last-used frame counter); otherwise invoke the builder
to construct a new entry, insert it and return it, recycling a storage slot
from the same layout's free list when one is available.  A builder failure
propagates the allocation error and leaves the cache unchanged. -/
def acquire (b : BindingState) (builder : Option Nat) (s : CacheState) : AcqOut :=
  let a := s.allocators b.layoutId
  match lookupEntry a b with
  | some e =>
    let e' : Entry := { e with lastUsed := s.frame }
    let a' : Allocator :=
      { a with entries := a.entries.map (fun x => if x.key == b then e' else x) }
    ⟨Except.ok e', { s with allocators := Function.update s.allocators b.layoutId a' }, false⟩
  | none =>
    match builder with
    | none => ⟨Except.error AcquireError.allocationFailed, s, true⟩
    | some _obj =>
      let sa := allocSlot a
      let e : Entry := ⟨b, ⟨b.layoutId, sa.1⟩, s.frame⟩
      let a' : Allocator := { sa.2 with entries := sa.2.entries ++ [e] }
      ⟨Except.ok e,
       { s with allocators := Function.update s.allocators b.layoutId a' },
       true⟩

/-- Modelled from the spec: the per-`begin_frame` sweep — advance the frame
counter, evict every entry whose last-used counter is more than
`idle_threshold` frames stale, and return each evicted entry's storage slot to
the free list of the same layout's allocator (never across layouts). -/
def sweep (s : CacheState) : CacheState :=
  let f := s.frame + 1
  { allocators := fun lid =>
      let a := s.allocators lid
      { entries := a.entries.filter (fun e => decide (f - e.lastUsed ≤ idle_threshold))
        freeList := a.freeList ++
          (a.entries.filter (fun e => decide (idle_threshold < f - e.lastUsed))).map
            (fun e => e.storage.slot)
        nextFresh := a.nextFresh }
    frame := f }

/-- Modelled from the spec: the cache's externally visible operations — an
`acquire` call or a `begin_frame` (frame advance plus eviction sweep). -/
inductive CacheOp where
  | acq (b : BindingState) (builder : Option Nat)
  | frame

/-- Modelled from the spec: one cache transition. -/
def stepCache : CacheOp → CacheState → CacheState
  | CacheOp.acq b bu, s => (acquire b bu s).state
  | CacheOp.frame, s => sweep s

/-- Modelled from the spec: run a sequence of cache operations from a state;
reachable cache states are exactly `runCache ops initCache`. -/
def runCache (ops : List CacheOp) (s : CacheState) : CacheState :=
  ops.foldl (fun t op => stepCache op t) s

/-- Modelled from the spec: the image layouts the attachment deducer can
assign for an access type within a subpass. -/
inductive AttachmentLayout where
  | colorAttachmentOptimal
  | shaderReadOnlyOptimal
  | general
  | unused
deriving DecidableEq

/-- Modelled from the spec: one subpass declaration — the attachment indices
it writes as color and those it reads as input attachments. -/
structure Subpass where
  colorWrites : List Nat
  inputReads : List Nat
deriving DecidableEq

/-- Modelled from the spec: the layout the deducer assigns an attachment in a
subpass — the feedback (read and written) case gets the general layout, a pure
color write gets color-attachment-optimal, a pure input-attachment read gets
the shader-read-only/input-attachment-optimal layout. -/
def subpassLayout (sp : Subpass) (a : Nat) : AttachmentLayout :=
  if sp.colorWrites.contains a && sp.inputReads.contains a then
    AttachmentLayout.general
  else if sp.colorWrites.contains a then
    AttachmentLayout.colorAttachmentOptimal
  else if sp.inputReads.contains a then
    AttachmentLayout.shaderReadOnlyOptimal
  else
    AttachmentLayout.unused

/-- Modelled from the spec: whether a subpass reads or writes an attachment. -/
def touchesAttachment (sp : Subpass) (a : Nat) : Bool :=
  sp.colorWrites.contains a || sp.inputReads.contains a

/-- Modelled from the spec: every attachment index declared by some subpass. -/
def attachmentsOf (sps : List Subpass) : List Nat :=
  ((sps.map (fun sp => sp.colorWrites ++ sp.inputReads)).flatten).dedup

/-- Modelled from the spec: the next subpass after `i` that reads or writes
attachment `a`, if any. -/
def nextToucher (sps : List Subpass) (a i : Nat) : Option Nat :=
  ((List.range sps.length).filter
    (fun j => decide (i < j) && touchesAttachment (sps.getD j ⟨[], []⟩) a)).head?

/-- Modelled from the spec: the deduced cross-subpass dependencies — for every
attachment, a dependency from each subpass that writes it to the next subpass
that reads or writes it. -/
def deduceDependencies (sps : List Subpass) : List (Nat × Nat) :=
  (((attachmentsOf sps).map (fun a =>
    ((List.range sps.length).filter
      (fun i => (sps.getD i ⟨[], []⟩).colorWrites.contains a)).filterMap
      (fun i => (nextToucher sps a i).map (fun j => (i, j))))).flatten).dedup

/-- Modelled from the spec: the pipeline render state a command buffer tracks
locally — depth test/write, topology, primitive restart, depth bias enable,
depth compare, stencil test and ops, color write mask, specialization
constants and their mask, vertex attributes, dynamic depth bias and stencil
reference values. -/
structure RenderState where
  depthTest : Bool
  depthWrite : Bool
  topology : Nat
  primitiveRestart : Bool
  depthBiasEnable : Bool
  depthCompare : Nat
  stencilTest : Bool
  stencilOps : List Nat
  colorWriteMask : Nat
  specConstMask : Nat
  specConsts : List Nat
  vertexAttribs : List (Nat × Nat × Nat × Nat)
  dynamicDepthBias : Nat × Nat
  stencilRef : List Nat
deriving DecidableEq

/-- Modelled from the spec: the full per-command-buffer state — render state,
the four descriptor-binding sets, push constants, viewport and scissor. -/
structure CmdState where
  render : RenderState
  bindings0 : List (Nat × Nat)
  bindings1 : List (Nat × Nat)
  bindings2 : List (Nat × Nat)
  bindings3 : List (Nat × Nat)
  pushConstants : List Nat
  viewport : List Nat
  scissor : List Nat
deriving DecidableEq

/-- Modelled from the spec: the known default render state every freshly
requested command buffer starts in. -/
def defaultRenderState : RenderState :=
  { depthTest := false, depthWrite := false, topology := 0
    primitiveRestart := false, depthBiasEnable := false, depthCompare := 0
    stencilTest := false, stencilOps := [0, 0, 0, 0], colorWriteMask := 15
    specConstMask := 0, specConsts := [0, 0, 0, 0], vertexAttribs := []
    dynamicDepthBias := (0, 0), stencilRef := [0, 0, 0] }

/-- Modelled from the spec: the known default state of a fresh command
buffer. -/
def defaultCmdState : CmdState :=
  { render := defaultRenderState
    bindings0 := [], bindings1 := [], bindings2 := [], bindings3 := []
    pushConstants := [], viewport := [0, 0, 0, 0, 0, 0], scissor := [0, 0, 0, 0] }

/-- Modelled from the spec: the render-state-setting calls a command buffer
exposes. -/
inductive CmdOp where
  | depthTest (test wr : Bool)
  | topology (t : Nat)
  | primitiveRestart (b : Bool)
  | depthBiasEnable (b : Bool)
  | depthCompare (c : Nat)
  | stencilTest (b : Bool)
  | stencilOps (o : List Nat)
  | colorWriteMask (m : Nat)
  | specConstMask (m : Nat)
  | specConst (i v : Nat)
  | vertexAttrib (attr binding fmt off : Nat)
  | dynamicDepthBias (a b : Nat)
  | stencilFrontReference (v : List Nat)
  | viewport (v : List Nat)
  | scissor (v : List Nat)
  | bind (set binding res : Nat)
  | pushConstant (data : List Nat)

/-- Modelled from the spec: upsert one binding identity in a binding set. -/
def setBinding (l : List (Nat × Nat)) (binding res : Nat) : List (Nat × Nat) :=
  (binding, res) :: l.filter (fun p => decide (p.1 ≠ binding))

/-- Modelled from the spec: how each state-setting call updates the command
buffer's local state. -/
def applyOp : CmdOp → CmdState → CmdState
  | CmdOp.depthTest t w, s => { s with render := { s.render with depthTest := t, depthWrite := w } }
  | CmdOp.topology t, s => { s with render := { s.render with topology := t } }
  | CmdOp.primitiveRestart b, s => { s with render := { s.render with primitiveRestart := b } }
  | CmdOp.depthBiasEnable b, s => { s with render := { s.render with depthBiasEnable := b } }
  | CmdOp.depthCompare c, s => { s with render := { s.render with depthCompare := c } }
  | CmdOp.stencilTest b, s => { s with render := { s.render with stencilTest := b } }
  | CmdOp.stencilOps o, s => { s with render := { s.render with stencilOps := o } }
  | CmdOp.colorWriteMask m, s => { s with render := { s.render with colorWriteMask := m } }
  | CmdOp.specConstMask m, s => { s with render := { s.render with specConstMask := m } }
  | CmdOp.specConst i v, s => { s with render := { s.render with specConsts := s.render.specConsts.set i v } }
  | CmdOp.vertexAttrib a b f o, s => { s with render := { s.render with vertexAttribs := (a, b, f, o) :: s.render.vertexAttribs } }
  | CmdOp.dynamicDepthBias a b, s => { s with render := { s.render with dynamicDepthBias := (a, b) } }
  | CmdOp.stencilFrontReference v, s => { s with render := { s.render with stencilRef := v } }
  | CmdOp.viewport v, s => { s with viewport := v }
  | CmdOp.scissor v, s => { s with scissor := v }
  | CmdOp.bind 0 b r, s => { s with bindings0 := setBinding s.bindings0 b r }
  | CmdOp.bind 1 b r, s => { s with bindings1 := setBinding s.bindings1 b r }
  | CmdOp.bind 2 b r, s => { s with bindings2 := setBinding s.bindings2 b r }
  | CmdOp.bind _ b r, s => { s with bindings3 := setBinding s.bindings3 b r }
  | CmdOp.pushConstant d, s => { s with pushConstants := d }

/-- Modelled from the spec: apply a sequence of state-setting calls. -/
def applyOps (ops : List CmdOp) (s : CmdState) : CmdState :=
  ops.foldl (fun t op => applyOp op t) s

/-- Modelled from the spec: the save-mask flags of `save_state` — render
state, the four binding sets, push constants, scissor and viewport. -/
inductive SavedFlag where
  | renderState
  | bindings0
  | bindings1
  | bindings2
  | bindings3
  | pushConstant
  | scissor
  | viewport
deriving DecidableEq

/-- Modelled from the spec: the saved-state blob `save_state` fills — the mask
and the captured value of every component. -/
structure SavedState where
  mask : List SavedFlag
  render : RenderState
  b0 : List (Nat × Nat)
  b1 : List (Nat × Nat)
  b2 : List (Nat × Nat)
  b3 : List (Nat × Nat)
  push : List Nat
  vp : List Nat
  sc : List Nat
deriving DecidableEq

/-- Modelled from the spec: `save_state(mask, saved)` captures the command
buffer's current state components into a blob together with the mask. -/
def saveState (mask : List SavedFlag) (s : CmdState) : SavedState :=
  ⟨mask, s.render, s.bindings0, s.bindings1, s.bindings2, s.bindings3,
   s.pushConstants, s.viewport, s.scissor⟩

/-- Modelled from the spec: `restore_state(saved)` writes every component
covered by the blob's mask back into the command buffer; components outside
the mask are left as they are.  The blob is not consumed, so it can be
restored any number of times. -/
def restoreState (sv : SavedState) (s : CmdState) : CmdState :=
  { render := if SavedFlag.renderState ∈ sv.mask then sv.render else s.render
    bindings0 := if SavedFlag.bindings0 ∈ sv.mask then sv.b0 else s.bindings0
    bindings1 := if SavedFlag.bindings1 ∈ sv.mask then sv.b1 else s.bindings1
    bindings2 := if SavedFlag.bindings2 ∈ sv.mask then sv.b2 else s.bindings2
    bindings3 := if SavedFlag.bindings3 ∈ sv.mask then sv.b3 else s.bindings3
    pushConstants := if SavedFlag.pushConstant ∈ sv.mask then sv.push else s.pushConstants
    viewport := if SavedFlag.viewport ∈ sv.mask then sv.vp else s.viewport
    scissor := if SavedFlag.scissor ∈ sv.mask then sv.sc else s.scissor }

/-- Modelled from the spec: which state component a save-mask flag covers, as
an agreement relation between two command-buffer states. -/
def agreesOn : SavedFlag → CmdState → CmdState → Prop
  | SavedFlag.renderState, s, t => s.render = t.render
  | SavedFlag.bindings0, s, t => s.bindings0 = t.bindings0
  | SavedFlag.bindings1, s, t => s.bindings1 = t.bindings1
  | SavedFlag.bindings2, s, t => s.bindings2 = t.bindings2
  | SavedFlag.bindings3, s, t => s.bindings3 = t.bindings3
  | SavedFlag.pushConstant, s, t => s.pushConstants = t.pushConstants
  | SavedFlag.scissor, s, t => s.scissor = t.scissor
  | SavedFlag.viewport, s, t => s.viewport = t.viewport

/-- Modelled from the spec: the device's pool of command buffers — each
requested buffer's local state, indexed by buffer id, plus the id for the next
requested buffer. -/
structure DevCmdPool where
  bufs : Nat → CmdState
  nextId : Nat

/-- Modelled from the spec: requesting a command buffer hands out a fresh
buffer id whose state is the known default, whatever was set on earlier
buffers. -/
def requestCommandBuffer (d : DevCmdPool) : Nat × DevCmdPool :=
  (d.nextId,
   { bufs := Function.update d.bufs d.nextId defaultCmdState, nextId := d.nextId + 1 })

/-- Modelled from the spec: a state-setting call acts only on the command
buffer it is issued on. -/
def applyOpOn (i : Nat) (op : CmdOp) (d : DevCmdPool) : DevCmdPool :=
  { d with bufs := Function.update d.bufs i (applyOp op (d.bufs i)) }

/-- Modelled from the spec: a sequence of state-setting calls on one command
buffer. -/
def runCmdOpsOn (i : Nat) (ops : List CmdOp) (d : DevCmdPool) : DevCmdPool :=
  ops.foldl (fun t op => applyOpOn i op t) d

/-- Concrete double-buffered ring state (depth 2, everything empty) used to
instantiate the ring theorems. -/
def ringW : RingState :=
  ⟨2, 0, fun _ => [], fun _ => false, []⟩

/-- Concrete binding state used to instantiate the cache theorems. -/
def bW1 : BindingState := ⟨0, [1, 2]⟩

/-- Concrete binding state structurally distinct from `bW1` yet with the same
fingerprint hash (both hash to 3). -/
def bW2 : BindingState := ⟨0, [3]⟩

/-- Concrete device command-buffer pool used to instantiate the locality
theorem. -/
def devW : DevCmdPool := ⟨fun _ => defaultCmdState, 0⟩

end Granite

namespace Granite

/-- In well-formed ring states, only indices below `N` are visited, so a step
of `begin_frame` keeps the invariant that `r` sits once in the context it was
queued in and nowhere else, until the ring wraps back to that context. -/
theorem mod_shift_ne {N c k : Nat} (hk0 : 0 < k) (hk : k < N) (hc : c < N) :
    (c + k) % N ≠ c := by
  intro h
  rcases Nat.lt_or_ge (c + k) N with hlt | hge
  · rw [Nat.mod_eq_of_lt hlt] at h
    omega
  · have hsub : (c + k) % N = (c + k - N) % N := Nat.mod_eq_sub_mod hge
    have hlt' : c + k - N < N := by omega
    rw [hsub, Nat.mod_eq_of_lt hlt'] at h
    omega

/-- Invariant of the ring after `destroy r` and `k < N` begin_frame calls: the
resource still sits exactly once in the context it was queued in, nowhere
else, and has not been freed; the current index has advanced `k` steps. -/
theorem ring_inv (s : RingState) (r : Nat) (hN : 0 < s.N) (hc : s.current < s.N)
    (hfr : s.freed.count r = 0)
    (hp : ∀ i, i < s.N → (s.pending i).count r = 0) :
    ∀ k, k < s.N →
      ((beginFrame^[k]) (destroy r s)).N = s.N ∧
      ((beginFrame^[k]) (destroy r s)).current = (s.current + k) % s.N ∧
      ((beginFrame^[k]) (destroy r s)).freed.count r = 0 ∧
      (((beginFrame^[k]) (destroy r s)).pending s.current).count r = 1 ∧
      (∀ i, i < s.N → i ≠ s.current →
        (((beginFrame^[k]) (destroy r s)).pending i).count r = 0) := by
  intro k
  induction k with
  | zero =>
    intro _
    refine ⟨rfl, ?_, hfr, ?_, ?_⟩
    · show s.current = (s.current + 0) % s.N
      simp [Nat.mod_eq_of_lt hc]
    · show (Function.update s.pending s.current (s.pending s.current ++ [r])
        s.current).count r = 1
      rw [Function.update_same, List.count_append, hp s.current hc]
      simp
    · intro i hi hne
      show (Function.update s.pending s.current (s.pending s.current ++ [r])
        i).count r = 0
      rw [Function.update_noteq hne]
      exact hp i hi
  | succ n ih =>
    intro hlt
    have hn : n < s.N := by omega
    obtain ⟨hNn, hcur, hfreed, hpc, hpo⟩ := ih hn
    rw [Function.iterate_succ_apply']
    set t := (beginFrame^[n]) (destroy r s) with ht
    have hnext_eq : (t.current + 1) % t.N = (s.current + (n + 1)) % s.N := by
      rw [hcur, hNn, Nat.mod_add_mod, Nat.add_assoc]
    have hnext_lt : (t.current + 1) % t.N < s.N := by
      rw [hNn]
      exact Nat.mod_lt _ hN
    have hnext_ne : (t.current + 1) % t.N ≠ s.current := by
      rw [hnext_eq]
      exact mod_shift_ne (Nat.succ_pos n) hlt hc
    refine ⟨hNn, ?_, ?_, ?_, ?_⟩
    · show (t.current + 1) % t.N = (s.current + (n + 1)) % s.N
      exact hnext_eq
    · show (t.freed ++ t.pending ((t.current + 1) % t.N)).count r = 0
      rw [List.count_append, hfreed, hpo _ hnext_lt hnext_ne]
    · show (Function.update t.pending ((t.current + 1) % t.N) []
        s.current).count r = 1
      rw [Function.update_noteq (Ne.symm hnext_ne)]
      exact hpc
    · intro i hi hne
      show (Function.update t.pending ((t.current + 1) % t.N) [] i).count r = 0
      by_cases hie : i = (t.current + 1) % t.N
      · rw [hie, Function.update_same]
        rfl
      · rw [Function.update_noteq hie]
        exact hpo i hi hne

/-- C1: a resource queued by `destroy` in the current frame context is freed
exactly once, by the `N`-th subsequent `begin_frame()` call, and never
earlier. -/
theorem deferred_reclamation_exact (s : RingState) (r : Nat)
    (hN : 0 < s.N) (hc : s.current < s.N)
    (hfr : s.freed.count r = 0)
    (hp : ∀ i, i < s.N → (s.pending i).count r = 0) :
    (∀ k, k < s.N → ((beginFrame^[k]) (destroy r s)).freed.count r = 0) ∧
    ((beginFrame^[s.N]) (destroy r s)).freed.count r = 1 := by
  constructor
  · intro k hk
    exact (ring_inv s r hN hc hfr hp k hk).2.2.1
  · obtain ⟨m, hm⟩ : ∃ m, s.N = m + 1 := ⟨s.N - 1, by omega⟩
    rw [hm, Function.iterate_succ_apply']
    obtain ⟨hNn, hcur, hfreed, hpc, _⟩ := ring_inv s r hN hc hfr hp m (by omega)
    set t := (beginFrame^[m]) (destroy r s) with ht
    have hnext : (t.current + 1) % t.N = s.current := by
      rw [hcur, hNn, Nat.mod_add_mod]
      have : s.current + m + 1 = s.current + s.N := by omega
      rw [this, Nat.add_mod_right, Nat.mod_eq_of_lt hc]
    show (t.freed ++ t.pending ((t.current + 1) % t.N)).count r = 1
    rw [List.count_append, hfreed, hnext, hpc]

/-- Witness for C1: destroying resource 7 on the double-buffered ring frees it
on the second `begin_frame` and not before. -/
theorem deferred_reclamation_witness :
    0 < ringW.N ∧ ringW.current < ringW.N ∧ ringW.freed.count 7 = 0 ∧
    (∀ i, i < ringW.N → (ringW.pending i).count 7 = 0) ∧
    ((∀ k, k < ringW.N → ((beginFrame^[k]) (destroy 7 ringW)).freed.count 7 = 0) ∧
     ((beginFrame^[ringW.N]) (destroy 7 ringW)).freed.count 7 = 1) :=
  ⟨by decide, by decide, by decide, by decide,
   deferred_reclamation_exact ringW 7 (by decide) (by decide) (by decide) (by decide)⟩

/-- C5: `begin_frame()` advances the current index to `(c+1) mod N`, waits for
that target context's completion marker, then frees every resource on that
context's pending-destruction list, and leaves that list empty afterward — in
that phase order. -/
theorem begin_frame_contract (s : RingState) (_hc : s.current < s.N) :
    beginFrame s = clearPhase (freePhase (waitPhase (advancePhase s))) ∧
    (beginFrame s).current = (s.current + 1) % s.N ∧
    (beginFrame s).markerReached ((s.current + 1) % s.N) = true ∧
    (beginFrame s).freed = s.freed ++ s.pending ((s.current + 1) % s.N) ∧
    (beginFrame s).pending ((s.current + 1) % s.N) = [] := by
  refine ⟨rfl, rfl, ?_, rfl, ?_⟩
  · show Function.update ((advancePhase s).markerReached) ((advancePhase s).current) true
      ((s.current + 1) % s.N) = true
    simp [advancePhase, Function.update_same]
  · show Function.update ((freePhase (waitPhase (advancePhase s))).pending)
      ((advancePhase s).current) [] ((s.current + 1) % s.N) = []
    simp [advancePhase, Function.update_same]

/-- Witness for C5 at the concrete double-buffered ring. -/
theorem begin_frame_contract_witness :
    ringW.current < ringW.N ∧
    (beginFrame ringW = clearPhase (freePhase (waitPhase (advancePhase ringW))) ∧
     (beginFrame ringW).current = (ringW.current + 1) % ringW.N ∧
     (beginFrame ringW).markerReached ((ringW.current + 1) % ringW.N) = true ∧
     (beginFrame ringW).freed = ringW.freed ++ ringW.pending ((ringW.current + 1) % ringW.N) ∧
     (beginFrame ringW).pending ((ringW.current + 1) % ringW.N) = []) :=
  ⟨by decide, begin_frame_contract ringW (by decide)⟩

/-- C6: after `wait_idle()`, every frame context's completion marker has been
reached, every pending-destruction list is empty, and the freed log has gained
exactly the concatenation of every context's pending list. -/
theorem wait_idle_postcondition (s : RingState) :
    ∀ i, i < s.N →
      (waitIdle s).pending i = [] ∧
      (waitIdle s).markerReached i = true ∧
      (waitIdle s).freed = s.freed ++ ((List.range s.N).map s.pending).flatten := by
  intro i hi
  refine ⟨?_, ?_, rfl⟩
  · show (if i < s.N then [] else s.pending i) = []
    simp [hi]
  · show (if i < s.N then true else s.markerReached i) = true
    simp [hi]

/-- Witness for C6 at the concrete double-buffered ring, context 1. -/
theorem wait_idle_postcondition_witness :
    (1 : Nat) < ringW.N ∧
    ((waitIdle ringW).pending 1 = [] ∧
     (waitIdle ringW).markerReached 1 = true ∧
     (waitIdle ringW).freed = ringW.freed ++ ((List.range ringW.N).map ringW.pending).flatten) :=
  ⟨by decide, wait_idle_postcondition ringW 1 (by decide)⟩

/-- C7: on the two-subpass chain where subpass 0 writes attachments 1 and 2 as
color and subpass 1 reads 1 and 2 as input attachments while writing
attachment 0 as color, the deducer emits exactly the dependency from subpass 0
to subpass 1, assigns attachments 1 and 2 the color-attachment-optimal layout
in subpass 0, and the shader-read-only/input-attachment-optimal layout in
subpass 1. -/
theorem attachment_deducer_two_subpass :
    deduceDependencies [⟨[1, 2], []⟩, ⟨[0], [1, 2]⟩] = [(0, 1)] ∧
    subpassLayout ⟨[1, 2], []⟩ 1 = AttachmentLayout.colorAttachmentOptimal ∧
    subpassLayout ⟨[1, 2], []⟩ 2 = AttachmentLayout.colorAttachmentOptimal ∧
    subpassLayout ⟨[0], [1, 2]⟩ 1 = AttachmentLayout.shaderReadOnlyOptimal ∧
    subpassLayout ⟨[0], [1, 2]⟩ 2 = AttachmentLayout.shaderReadOnlyOptimal := by
  decide

/-- C9: after `save_state(mask, saved)`, any sequence of state-setting calls
followed by `restore_state(saved)` returns every component covered by the mask
to its value at save time, and the blob can be restored again after further
state changes. -/
theorem save_restore_roundtrip (mask : List SavedFlag) (st : CmdState)
    (ops ops2 : List CmdOp) (f : SavedFlag) (hf : f ∈ mask) :
    agreesOn f (restoreState (saveState mask st) (applyOps ops st)) st ∧
    agreesOn f (restoreState (saveState mask st)
      (applyOps ops2 (restoreState (saveState mask st) (applyOps ops st)))) st := by
  have key : ∀ t : CmdState, agreesOn f (restoreState (saveState mask st) t) st := by
    intro t
    cases f <;> simp [agreesOn, restoreState, saveState, hf]
  exact ⟨key _, key _⟩

/-- Witness for C9: render state saved, clobbered by a depth-test change, and
restored (twice) on the default command buffer state. -/
theorem save_restore_roundtrip_witness :
    SavedFlag.renderState ∈ [SavedFlag.renderState, SavedFlag.viewport] ∧
    (agreesOn SavedFlag.renderState
      (restoreState (saveState [SavedFlag.renderState, SavedFlag.viewport] defaultCmdState)
        (applyOps [CmdOp.depthTest true true] defaultCmdState)) defaultCmdState ∧
     agreesOn SavedFlag.renderState
      (restoreState (saveState [SavedFlag.renderState, SavedFlag.viewport] defaultCmdState)
        (applyOps [CmdOp.colorWriteMask 14]
          (restoreState (saveState [SavedFlag.renderState, SavedFlag.viewport] defaultCmdState)
            (applyOps [CmdOp.depthTest true true] defaultCmdState)))) defaultCmdState) :=
  ⟨by decide,
   save_restore_roundtrip [SavedFlag.renderState, SavedFlag.viewport] defaultCmdState
     [CmdOp.depthTest true true] [CmdOp.colorWriteMask 14] SavedFlag.renderState (by decide)⟩

/-- C10: render state is local to its command buffer — a sequence of
state-setting calls on buffer `i` leaves any distinct buffer `j` unchanged,
and a newly requested command buffer always starts in the known default state,
whatever was set on previous buffers. -/
theorem command_buffer_state_locality (d : DevCmdPool) (i j : Nat)
    (ops : List CmdOp) (hij : i ≠ j) :
    (runCmdOpsOn i ops d).bufs j = d.bufs j ∧
    (requestCommandBuffer d).2.bufs (requestCommandBuffer d).1 = defaultCmdState := by
  constructor
  · induction ops generalizing d with
    | nil => rfl
    | cons op rest ih =>
      have h1 : (applyOpOn i op d).bufs j = d.bufs j :=
        Function.update_noteq (Ne.symm hij) _ _
      calc (runCmdOpsOn i (op :: rest) d).bufs j
          = (runCmdOpsOn i rest (applyOpOn i op d)).bufs j := rfl
        _ = (applyOpOn i op d).bufs j := ih _
        _ = d.bufs j := h1
  · show Function.update d.bufs d.nextId defaultCmdState d.nextId = defaultCmdState
    exact Function.update_same _ _ _

/-- Witness for C10: a topology change on buffer 0 leaves buffer 1 untouched,
and a fresh request starts at the default state. -/
theorem command_buffer_state_locality_witness :
    (0 : Nat) ≠ 1 ∧
    ((runCmdOpsOn 0 [CmdOp.topology 3] devW).bufs 1 = devW.bufs 1 ∧
     (requestCommandBuffer devW).2.bufs (requestCommandBuffer devW).1 = defaultCmdState) :=
  ⟨by decide, command_buffer_state_locality devW 0 1 [CmdOp.topology 3] (by decide)⟩

/-- Every entry `acquire` returns carries exactly the queried binding state as
its key, because lookup requires full structural equality. -/
theorem acquire_ok_key {b : BindingState} {bu : Option Nat} {s : CacheState}
    {e : Entry} (h : (acquire b bu s).result = Except.ok e) : e.key = b := by
  rcases hl : lookupEntry (s.allocators b.layoutId) b with _ | e0
  · rcases bu with _ | obj
    · simp [acquire, hl] at h
    · simp [acquire, hl] at h
      rw [← h]
  · have hk : e0.key = b := by
      have hl' := hl
      unfold lookupEntry at hl'
      have hf := List.find?_some hl'
      simpa using hf
    simp [acquire, hl] at h
    rw [← h]
    exact hk

/-- C8: when `builder_fn` fails, `acquire` propagates the distinct
allocation-failure error and the cache state is unchanged, so a later
`acquire` with the same fingerprint behaves as if the failed call never
happened. -/
theorem builder_failure_atomic (b : BindingState) (s : CacheState)
    (hmiss : lookupEntry (s.allocators b.layoutId) b = none) :
    (acquire b none s).result = Except.error AcquireError.allocationFailed ∧
    (acquire b none s).state = s ∧
    (acquire b none s).builderInvoked = true ∧
    ∀ bu', acquire b bu' ((acquire b none s).state) = acquire b bu' s := by
  have hstep : acquire b none s = ⟨Except.error AcquireError.allocationFailed, s, true⟩ := by
    simp [acquire, hmiss]
  refine ⟨by rw [hstep], by rw [hstep], by rw [hstep], ?_⟩
  intro bu'
  rw [hstep]

/-- Witness for C8 at the empty cache. -/
theorem builder_failure_atomic_witness :
    lookupEntry (initCache.allocators bW1.layoutId) bW1 = none ∧
    ((acquire bW1 none initCache).result = Except.error AcquireError.allocationFailed ∧
     (acquire bW1 none initCache).state = initCache ∧
     (acquire bW1 none initCache).builderInvoked = true ∧
     ∀ bu', acquire bW1 bu' ((acquire bW1 none initCache).state) = acquire bW1 bu' initCache) :=
  ⟨by decide, builder_failure_atomic bW1 initCache (by decide)⟩

/-- C3: structurally distinct binding states whose fingerprint hashes collide
are treated as distinct cache entries — each `acquire` returns an entry keyed
by its own full binding state, never the other's. -/
theorem acquire_collision_safe (b1 b2 : BindingState) (bu1 bu2 : Option Nat)
    (s : CacheState) (e1 e2 : Entry)
    (hne : b1 ≠ b2) (_hhash : fingerHash b1 = fingerHash b2)
    (h1 : (acquire b1 bu1 s).result = Except.ok e1)
    (h2 : (acquire b2 bu2 ((acquire b1 bu1 s).state)).result = Except.ok e2) :
    e1.key = b1 ∧ e2.key = b2 ∧ e1 ≠ e2 := by
  have k1 := acquire_ok_key h1
  have k2 := acquire_ok_key h2
  refine ⟨k1, k2, ?_⟩
  intro he
  exact hne (by rw [← k1, he, k2])

/-- A hash pre-filter does not change a find-by-full-equality, because full
key equality implies hash equality. -/
theorem find?_filter_of_imp {α : Type} (p q : α → Bool)
    (himp : ∀ x, p x = true → q x = true) :
    ∀ l : List α, (l.filter q).find? p = l.find? p := by
  intro l
  induction l with
  | nil => rfl
  | cons x xs ih =>
    by_cases hpx : p x = true
    · rw [List.filter_cons_of_pos (himp x hpx), List.find?_cons_of_pos _ hpx,
        List.find?_cons_of_pos _ hpx]
    · by_cases hqx : q x = true
      · rw [List.filter_cons_of_pos hqx, List.find?_cons_of_neg _ hpx,
          List.find?_cons_of_neg _ hpx]
        exact ih
      · rw [List.filter_cons_of_neg hqx, List.find?_cons_of_neg _ hpx]
        exact ih

/-- The hash-then-verify lookup coincides with a plain find by full structural
equality. -/
theorem lookupEntry_eq_find? (a : Allocator) (b : BindingState) :
    lookupEntry a b = a.entries.find? (fun x => x.key == b) := by
  unfold lookupEntry
  apply find?_filter_of_imp
  intro x hx
  have hxb : x.key = b := by simpa using hx
  simp [hxb]

/-- Filtering out other elements preserves the first match, provided the match
itself survives the filter. -/
theorem find?_filter_keep {α : Type} (p keep : α → Bool) :
    ∀ (l : List α) (e : α), l.find? p = some e → keep e = true →
      (l.filter keep).find? p = some e := by
  intro l
  induction l with
  | nil => intro e h _; simp at h
  | cons x xs ih =>
    intro e h hk
    by_cases hpx : p x = true
    · rw [List.find?_cons_of_pos _ hpx] at h
      have hxe : x = e := by simpa using h
      subst hxe
      rw [List.filter_cons_of_pos hk, List.find?_cons_of_pos _ hpx]
    · rw [List.find?_cons_of_neg _ hpx] at h
      by_cases hkx : keep x = true
      · rw [List.filter_cons_of_pos hkx, List.find?_cons_of_neg _ hpx]
        exact ih e h hk
      · rw [List.filter_cons_of_neg hkx]
        exact ih e h hk

/-- Replacing the entry keyed `b` (in place) makes the find-by-key return the
replacement. -/
theorem find?_map_replace (b : BindingState) (e' : Entry) (he' : e'.key = b) :
    ∀ (l : List Entry) (e : Entry),
      l.find? (fun x => x.key == b) = some e →
      (l.map (fun x => if x.key == b then e' else x)).find? (fun x => x.key == b) =
        some e' := by
  intro l
  induction l with
  | nil => intro e h; simp at h
  | cons x xs ih =>
    intro e h
    by_cases hpx : (x.key == b) = true
    · simp only [List.map_cons, if_pos hpx]
      exact List.find?_cons_of_pos _ (by simp [he'])
    · have hcons : List.find? (fun y => y.key == b) (x :: xs) =
          List.find? (fun y => y.key == b) xs := List.find?_cons_of_neg _ hpx
      rw [hcons] at h
      have hmap : (x :: xs).map (fun y => if y.key == b then e' else y) =
          (if x.key == b then e' else x) ::
            xs.map (fun y => if y.key == b then e' else y) := List.map_cons _ _ _
      have hgx : (if x.key == b then e' else x) = x := if_neg hpx
      have hcons2 : List.find? (fun y => y.key == b)
          (x :: xs.map (fun y => if y.key == b then e' else y)) =
          List.find? (fun y => y.key == b)
            (xs.map (fun y => if y.key == b then e' else y)) :=
        List.find?_cons_of_neg _ hpx
      rw [hmap, hgx, hcons2]
      exact ih e h

/-- Appending a matching element to a list with no match makes the find return
the appended element. -/
theorem find?_append_of_none {α : Type} (p : α → Bool) :
    ∀ (l : List α) (e : α), l.find? p = none → p e = true →
      (l ++ [e]).find? p = some e := by
  intro l
  induction l with
  | nil =>
    intro e _ hp
    simpa using List.find?_cons_of_pos ([] : List α) hp
  | cons x xs ih =>
    intro e h hp
    by_cases hpx : p x = true
    · rw [List.find?_cons_of_pos _ hpx] at h
      simp at h
    · rw [List.find?_cons_of_neg _ hpx] at h
      rw [List.cons_append, List.find?_cons_of_neg _ hpx]
      exact ih e h hp

/-- Taking a slot from the free list never changes the allocator's entries. -/
theorem allocSlot_entries (a : Allocator) : (allocSlot a).2.entries = a.entries := by
  rcases hfl : a.freeList with _ | ⟨f, rest⟩
  · simp [allocSlot, hfl]
  · simp [allocSlot, hfl]

/-- After a successful `acquire`, the returned entry is exactly what lookup
finds in the resulting state, its last-used counter is the current frame, and
the frame counter is unchanged. -/
theorem acquire_ok_lookup {b : BindingState} {bu : Option Nat} {s : CacheState}
    {e : Entry} (h : (acquire b bu s).result = Except.ok e) :
    lookupEntry (((acquire b bu s).state).allocators b.layoutId) b = some e ∧
    e.lastUsed = s.frame ∧ ((acquire b bu s).state).frame = s.frame := by
  rcases hl : lookupEntry (s.allocators b.layoutId) b with _ | e0
  · rcases bu with _ | obj
    · simp [acquire, hl] at h
    · have hfind : (s.allocators b.layoutId).entries.find? (fun x => x.key == b) = none := by
        rw [← lookupEntry_eq_find?]
        exact hl
      have h2 : (acquire b (some obj) s).result =
          Except.ok ⟨b, ⟨b.layoutId, (allocSlot (s.allocators b.layoutId)).1⟩, s.frame⟩ := by
        simp only [acquire, hl]
      have h1 : (((acquire b (some obj) s).state).allocators b.layoutId).entries =
          (s.allocators b.layoutId).entries ++
            [⟨b, ⟨b.layoutId, (allocSlot (s.allocators b.layoutId)).1⟩, s.frame⟩] := by
        simp only [acquire, hl, Function.update_same, allocSlot_entries]
      have h3 : ((acquire b (some obj) s).state).frame = s.frame := by
        simp only [acquire, hl]
      have he : e = ⟨b, ⟨b.layoutId, (allocSlot (s.allocators b.layoutId)).1⟩, s.frame⟩ :=
        Except.ok.inj (h.symm.trans h2)
      subst he
      refine ⟨?_, rfl, h3⟩
      rw [lookupEntry_eq_find?, h1]
      exact find?_append_of_none _ _ _ hfind (by simp)
  · have hfind : (s.allocators b.layoutId).entries.find? (fun x => x.key == b) = some e0 := by
      rw [← lookupEntry_eq_find?]
      exact hl
    have hk0 : e0.key = b := by
      have hf := List.find?_some hfind
      simpa using hf
    have h2 : (acquire b bu s).result = Except.ok ⟨e0.key, e0.storage, s.frame⟩ := by
      simp only [acquire, hl]
    have h1 : (((acquire b bu s).state).allocators b.layoutId).entries =
        (s.allocators b.layoutId).entries.map
          (fun x => if x.key == b then ⟨e0.key, e0.storage, s.frame⟩ else x) := by
      simp only [acquire, hl, Function.update_same]
    have h3 : ((acquire b bu s).state).frame = s.frame := by
      simp only [acquire, hl]
    have he : e = ⟨e0.key, e0.storage, s.frame⟩ := Except.ok.inj (h.symm.trans h2)
    subst he
    refine ⟨?_, rfl, h3⟩
    rw [lookupEntry_eq_find?, h1]
    exact find?_map_replace b ⟨e0.key, e0.storage, s.frame⟩ hk0 _ e0 hfind

/-- A sweep whose new frame counter is within `idle_threshold` of an entry's
last-used frame keeps that entry findable. -/
theorem lookup_after_sweep (s : CacheState) (lid : Nat) (b : BindingState) (e : Entry)
    (hl : lookupEntry (s.allocators lid) b = some e)
    (hfresh : s.frame + 1 ≤ e.lastUsed + idle_threshold) :
    lookupEntry ((sweep s).allocators lid) b = some e := by
  rw [lookupEntry_eq_find?] at hl
  rw [lookupEntry_eq_find?]
  have hent : ((sweep s).allocators lid).entries =
      (s.allocators lid).entries.filter
        (fun x => decide (s.frame + 1 - x.lastUsed ≤ idle_threshold)) := rfl
  rw [hent]
  refine find?_filter_keep _ _ _ _ hl ?_
  simp only [decide_eq_true_eq]
  omega

/-- Iterated sweeps keep an entry findable as long as no more than
`idle_threshold` frames elapse past its last use; the frame counter advances
by one per sweep. -/
theorem lookup_after_sweeps (lid : Nat) (b : BindingState) (e : Entry) :
    ∀ (k : Nat) (s : CacheState),
      lookupEntry (s.allocators lid) b = some e →
      s.frame + k ≤ e.lastUsed + idle_threshold →
      lookupEntry (((sweep^[k]) s).allocators lid) b = some e ∧
      ((sweep^[k]) s).frame = s.frame + k := by
  intro k
  induction k with
  | zero =>
    intro s h _
    exact ⟨h, rfl⟩
  | succ n ih =>
    intro s h hb
    rw [Function.iterate_succ_apply]
    have h1 : lookupEntry ((sweep s).allocators lid) b = some e :=
      lookup_after_sweep s lid b e h (by omega)
    have hfr : (sweep s).frame = s.frame + 1 := rfl
    obtain ⟨ha, hb2⟩ := ih (sweep s) h1 (by rw [hfr]; omega)
    exact ⟨ha, by rw [hb2, hfr]; omega⟩

/-- C2: a second `acquire` with the same fingerprint within `idle_threshold`
frames returns the cached entry (same key, same storage) without invoking the
builder; the builder runs only on the first call, which inserts the freshly
built entry. -/
theorem acquire_cached_no_rebuild (b : BindingState) (bu bu' : Option Nat)
    (s : CacheState) (k : Nat) (e : Entry)
    (hk : k < idle_threshold)
    (h1 : (acquire b bu s).result = Except.ok e) :
    (acquire b bu' ((sweep^[k]) ((acquire b bu s).state))).result =
      Except.ok ⟨e.key, e.storage, ((sweep^[k]) ((acquire b bu s).state)).frame⟩ ∧
    (acquire b bu' ((sweep^[k]) ((acquire b bu s).state))).builderInvoked = false ∧
    (lookupEntry (s.allocators b.layoutId) b = none →
      (acquire b bu s).builderInvoked = true ∧
      e ∈ (((acquire b bu s).state).allocators b.layoutId).entries) := by
  obtain ⟨hlook, hlast, hfr⟩ := acquire_ok_lookup h1
  set s2 := (sweep^[k]) ((acquire b bu s).state) with hs2
  obtain ⟨hlook2, _⟩ := lookup_after_sweeps b.layoutId b e k
    ((acquire b bu s).state) hlook (by rw [hfr, hlast]; omega)
  refine ⟨?_, ?_, ?_⟩
  · simp only [acquire, hlook2]
  · simp only [acquire, hlook2]
  · intro hmiss
    rcases bu with _ | obj
    · simp [acquire, hmiss] at h1
    · constructor
      · simp only [acquire, hmiss]
      · have h2 : (acquire b (some obj) s).result =
            Except.ok ⟨b, ⟨b.layoutId, (allocSlot (s.allocators b.layoutId)).1⟩, s.frame⟩ := by
          simp only [acquire, hmiss]
        have hent : (((acquire b (some obj) s).state).allocators b.layoutId).entries =
            (s.allocators b.layoutId).entries ++
              [⟨b, ⟨b.layoutId, (allocSlot (s.allocators b.layoutId)).1⟩, s.frame⟩] := by
          simp only [acquire, hmiss, Function.update_same, allocSlot_entries]
        have he : e = ⟨b, ⟨b.layoutId, (allocSlot (s.allocators b.layoutId)).1⟩, s.frame⟩ :=
          Except.ok.inj (h1.symm.trans h2)
        rw [hent, he]
        exact List.mem_append_right _ (List.mem_singleton.mpr rfl)

/-- Witness for C2: resource set `bW1` acquired, two frames pass, and the
second acquire returns the same cached storage without rebuilding. -/
theorem acquire_cached_no_rebuild_witness :
    2 < idle_threshold ∧
    (acquire bW1 (some 0) initCache).result = Except.ok ⟨bW1, ⟨0, 0⟩, 0⟩ ∧
    ((acquire bW1 (some 5) ((sweep^[2]) ((acquire bW1 (some 0) initCache).state))).result =
       Except.ok ⟨(⟨bW1, ⟨0, 0⟩, 0⟩ : Entry).key, (⟨bW1, ⟨0, 0⟩, 0⟩ : Entry).storage,
         ((sweep^[2]) ((acquire bW1 (some 0) initCache).state)).frame⟩ ∧
     (acquire bW1 (some 5)
       ((sweep^[2]) ((acquire bW1 (some 0) initCache).state))).builderInvoked = false ∧
     (lookupEntry (initCache.allocators bW1.layoutId) bW1 = none →
       (acquire bW1 (some 0) initCache).builderInvoked = true ∧
       (⟨bW1, ⟨0, 0⟩, 0⟩ : Entry) ∈
         (((acquire bW1 (some 0) initCache).state).allocators bW1.layoutId).entries)) :=
  ⟨by decide, by decide,
   acquire_cached_no_rebuild bW1 (some 0) (some 5) initCache 2 ⟨bW1, ⟨0, 0⟩, 0⟩
     (by decide) (by decide)⟩

/-- An `acquire` never touches any other layout's allocator. -/
theorem acquire_allocators_other {b : BindingState} {bu : Option Nat}
    {s : CacheState} {lid : Nat} (hlid : lid ≠ b.layoutId) :
    ((acquire b bu s).state).allocators lid = s.allocators lid := by
  rcases hl : lookupEntry (s.allocators b.layoutId) b with _ | e0
  · rcases bu with _ | obj
    · simp only [acquire, hl]
    · simp only [acquire, hl]
      exact Function.update_noteq hlid _ _
  · simp only [acquire, hl]
    exact Function.update_noteq hlid _ _

/-- One cache transition preserves the invariant that every entry's storage is
tagged with the layout of the allocator holding it. -/
theorem step_layout_inv (op : CacheOp) (s : CacheState)
    (h : ∀ lid e, e ∈ (s.allocators lid).entries → e.storage.layoutId = lid) :
    ∀ lid e, e ∈ ((stepCache op s).allocators lid).entries →
      e.storage.layoutId = lid := by
  rcases op with ⟨b, bu⟩ | _
  · intro lid e he
    by_cases hlid : lid = b.layoutId
    · subst hlid
      rcases hl : lookupEntry (s.allocators b.layoutId) b with _ | e0
      · rcases bu with _ | obj
        · have hsame : ((stepCache (CacheOp.acq b none) s).allocators b.layoutId).entries =
              (s.allocators b.layoutId).entries := by
            simp only [stepCache, acquire, hl]
          rw [hsame] at he
          exact h b.layoutId e he
        · have hent : ((stepCache (CacheOp.acq b (some obj)) s).allocators b.layoutId).entries =
              (s.allocators b.layoutId).entries ++
                [⟨b, ⟨b.layoutId, (allocSlot (s.allocators b.layoutId)).1⟩, s.frame⟩] := by
            simp only [stepCache, acquire, hl, Function.update_same, allocSlot_entries]
          rw [hent] at he
          rcases List.mem_append.mp he with hin | hnew
          · exact h b.layoutId e hin
          · rw [List.mem_singleton.mp hnew]
      · have hfind : (s.allocators b.layoutId).entries.find? (fun x => x.key == b) = some e0 := by
          rw [← lookupEntry_eq_find?]
          exact hl
        have hent : ((stepCache (CacheOp.acq b bu) s).allocators b.layoutId).entries =
            (s.allocators b.layoutId).entries.map
              (fun x => if x.key == b then ⟨e0.key, e0.storage, s.frame⟩ else x) := by
          simp only [stepCache, acquire, hl, Function.update_same]
        rw [hent] at he
        obtain ⟨x, hx, hgx⟩ := List.mem_map.mp he
        by_cases hpx : (x.key == b) = true
        · rw [if_pos hpx] at hgx
          rw [← hgx]
          exact h b.layoutId e0 (List.mem_of_find?_eq_some hfind)
        · rw [if_neg hpx] at hgx
          rw [← hgx]
          exact h b.layoutId x hx
    · have hother : ((stepCache (CacheOp.acq b bu) s).allocators lid) = s.allocators lid :=
        acquire_allocators_other hlid
      rw [hother] at he
      exact h lid e he
  · intro lid e he
    have hent : ((stepCache CacheOp.frame s).allocators lid).entries =
        (s.allocators lid).entries.filter
          (fun x => decide (s.frame + 1 - x.lastUsed ≤ idle_threshold)) := rfl
    rw [hent] at he
    exact h lid e (List.mem_of_mem_filter he)

/-- The storage-stays-within-its-layout invariant holds along any run of cache
operations. -/
theorem runCache_layout_inv (ops : List CacheOp) :
    ∀ (s : CacheState),
      (∀ lid e, e ∈ (s.allocators lid).entries → e.storage.layoutId = lid) →
      ∀ lid e, e ∈ ((runCache ops s).allocators lid).entries →
        e.storage.layoutId = lid := by
  induction ops with
  | nil =>
    intro s h
    exact h
  | cons op rest ih =>
    intro s h
    exact ih _ (step_layout_inv op s h)

/-- C4: in every reachable cache state, an entry the sweep evicts is more than
`idle_threshold` frames stale, an entry used within `idle_threshold` frames
survives the sweep, and every entry's storage belongs to the layout of the
allocator holding it (never another layout's). -/
theorem eviction_threshold_invariant (ops : List CacheOp) (lid : Nat) (e : Entry) :
    (e ∈ ((runCache ops initCache).allocators lid).entries →
      e ∉ ((sweep (runCache ops initCache)).allocators lid).entries →
      idle_threshold < (sweep (runCache ops initCache)).frame - e.lastUsed) ∧
    (e ∈ ((runCache ops initCache).allocators lid).entries →
      (sweep (runCache ops initCache)).frame - e.lastUsed ≤ idle_threshold →
      e ∈ ((sweep (runCache ops initCache)).allocators lid).entries) ∧
    (e ∈ ((runCache ops initCache).allocators lid).entries →
      e.storage.layoutId = lid) := by
  have hent : ((sweep (runCache ops initCache)).allocators lid).entries =
      ((runCache ops initCache).allocators lid).entries.filter
        (fun x => decide ((runCache ops initCache).frame + 1 - x.lastUsed ≤ idle_threshold)) :=
    rfl
  have hfr : (sweep (runCache ops initCache)).frame =
      (runCache ops initCache).frame + 1 := rfl
  refine ⟨?_, ?_, ?_⟩
  · intro hin hout
    rw [hfr]
    by_contra hle
    push_neg at hle
    apply hout
    rw [hent, List.mem_filter]
    refine ⟨hin, ?_⟩
    simp only [decide_eq_true_eq]
    exact hle
  · intro hin hle
    rw [hfr] at hle
    rw [hent, List.mem_filter]
    refine ⟨hin, ?_⟩
    simp only [decide_eq_true_eq]
    exact hle
  · intro hin
    refine runCache_layout_inv ops initCache ?_ lid e hin
    intro lid' e' h'
    simp [initCache] at h'

/-- Witness for C4: an entry kept three frames after use survives the sweep;
an entry eight frames stale is evicted by the ninth; the inserted entry's
storage carries its own layout id. -/
theorem eviction_threshold_invariant_witness :
    ((⟨bW1, ⟨0, 0⟩, 0⟩ : Entry) ∈
       ((runCache [CacheOp.acq bW1 (some 0), CacheOp.frame, CacheOp.frame,
         CacheOp.frame] initCache).allocators 0).entries ∧
     (sweep (runCache [CacheOp.acq bW1 (some 0), CacheOp.frame, CacheOp.frame,
         CacheOp.frame] initCache)).frame - (0 : Nat) ≤ idle_threshold ∧
     (⟨bW1, ⟨0, 0⟩, 0⟩ : Entry) ∈
       ((sweep (runCache [CacheOp.acq bW1 (some 0), CacheOp.frame, CacheOp.frame,
         CacheOp.frame] initCache)).allocators 0).entries) ∧
    ((⟨bW1, ⟨0, 0⟩, 0⟩ : Entry) ∈
       ((runCache (CacheOp.acq bW1 (some 0) ::
         List.replicate 8 CacheOp.frame) initCache).allocators 0).entries ∧
     (⟨bW1, ⟨0, 0⟩, 0⟩ : Entry) ∉
       ((sweep (runCache (CacheOp.acq bW1 (some 0) ::
         List.replicate 8 CacheOp.frame) initCache)).allocators 0).entries ∧
     idle_threshold < (sweep (runCache (CacheOp.acq bW1 (some 0) ::
         List.replicate 8 CacheOp.frame) initCache)).frame -
       (⟨bW1, ⟨0, 0⟩, 0⟩ : Entry).lastUsed) ∧
    ((⟨bW1, ⟨0, 0⟩, 0⟩ : Entry) ∈
       ((runCache [CacheOp.acq bW1 (some 0)] initCache).allocators 0).entries ∧
     (⟨bW1, ⟨0, 0⟩, 0⟩ : Entry).storage.layoutId = 0) :=
  ⟨⟨by decide, by decide,
    (eviction_threshold_invariant [CacheOp.acq bW1 (some 0), CacheOp.frame, CacheOp.frame,
      CacheOp.frame] 0 ⟨bW1, ⟨0, 0⟩, 0⟩).2.1 (by decide) (by decide)⟩,
   ⟨by decide, by decide,
    (eviction_threshold_invariant (CacheOp.acq bW1 (some 0) ::
      List.replicate 8 CacheOp.frame) 0 ⟨bW1, ⟨0, 0⟩, 0⟩).1 (by decide) (by decide)⟩,
   ⟨by decide,
    (eviction_threshold_invariant [CacheOp.acq bW1 (some 0)] 0
      ⟨bW1, ⟨0, 0⟩, 0⟩).2.2 (by decide)⟩⟩

/-- Witness for C3: `bW1` and `bW2` are distinct yet share fingerprint hash 3;
acquiring both from the empty cache yields two distinct entries. -/
theorem acquire_collision_safe_witness :
    bW1 ≠ bW2 ∧ fingerHash bW1 = fingerHash bW2 ∧
    (acquire bW1 (some 0) initCache).result = Except.ok ⟨bW1, ⟨0, 0⟩, 0⟩ ∧
    (acquire bW2 (some 0) ((acquire bW1 (some 0) initCache).state)).result =
      Except.ok ⟨bW2, ⟨0, 1⟩, 0⟩ ∧
    ((⟨bW1, ⟨0, 0⟩, 0⟩ : Entry).key = bW1 ∧ (⟨bW2, ⟨0, 1⟩, 0⟩ : Entry).key = bW2 ∧
     (⟨bW1, ⟨0, 0⟩, 0⟩ : Entry) ≠ (⟨bW2, ⟨0, 1⟩, 0⟩ : Entry)) :=
  ⟨by decide, by decide, by decide, by decide,
   acquire_collision_safe bW1 bW2 (some 0) (some 0) initCache ⟨bW1, ⟨0, 0⟩, 0⟩
     ⟨bW2, ⟨0, 1⟩, 0⟩ (by decide) (by decide) (by decide) (by decide)⟩

end Granite
